import Mathlib

/-!
Verification development for the column-flow PDF layout engine found in
`src/07_ReviewSheets/generate_pdf.py` (namespace `Review` below) and
`src/07_ReviewSheets/SystemDesign/generate_pdf.py` (namespace `SysDesign`).

The engine state (page index, column index, vertical cursor offset, current
page title, pending sub-header bookkeeping) is shallowly embedded as a
`State` record, and every drawing call issued to the underlying canvas is
recorded as an `Ev` event in chronological order.  Geometry constants are
taken literally from the source (letter paper in landscape, millimetres:
page 279.4 x 215.9, margin 6, 3 columns, gap 4, top of content 18).

String width measurement and `multi_cell` word-wrapping are services of the
third-party drawing library (fpdf); they are parametrized by a `Metrics`
record: per-character widths for each font configuration the scripts use
(fpdf's `get_string_width` is the sum of per-character widths), the width of
the reference glyph "M" in Courier 5.5, and the wrapped-line count used by
`multi_cell`.
-/

/-- A drawing event issued to the canvas, in chronological order. -/
inductive Ev where
  /-- Page chrome: the title banner drawn by `page_header` on a page. -/
  | chrome (title : String) (page : Nat)
  /-- A section header band (`cell` of height 5.5 at `y`), from `section`. -/
  | sectionHdr (title : String) (page col : Nat) (y : ℚ)
  /-- A sub-header band (`cell` of height 4.5 at `y`). -/
  | subsectHdr (title : String) (page col : Nat) (y : ℚ)
  /-- A background-colored rectangle painted over `[y, y+h]` of a column
  (the orphan-correction white-out). -/
  | whiteRect (page col : Nat) (y h : ℚ)
  /-- A code block: background rectangle of height `h` at `y` with the
  truncated lines drawn inside, from `code_block`. -/
  | codeRect (lines : List String) (page col : Nat) (y h : ℚ)
  /-- A body-text block: the truncated lines drawn in `[y, y+h]`,
  from `body_text`. -/
  | bodyBlock (lines : List String) (page col : Nat) (y h : ℚ)
  /-- A labeled list: bold label cell at `y` followed by the comma-joined
  items in a `multi_cell`, from `compact_list`. -/
  | listBlock (label itemStr : String) (page col : Nat) (y : ℚ) (est : ℤ)
  deriving DecidableEq

/-- Engine state.  `lastSub` is the orphan-prevention record of the
`Review` variant (`_last_subsect`: title, start offset, page, column);
`pendingSub` is the deferred header title of the `SysDesign` variant
(`_pending_subsect`).  Each variant touches only its own field. -/
structure State where
  page : Nat
  colIdx : Nat
  colY : ℚ
  title : String
  lastSub : Option (String × ℚ × Nat × Nat)
  pendingSub : Option String
  events : List Ev
  deriving DecidableEq

/-- Font metrics supplied by the drawing library (fpdf).  `get_string_width`
is the sum of per-character widths for the currently selected font. -/
structure Metrics where
  /-- Per-character width in Helvetica 6 (used by `body_text`). -/
  cwBody : Char → ℚ
  /-- Per-character width in Helvetica Bold 6 (the list label). -/
  cwLabel : Char → ℚ
  /-- Per-character width in Helvetica 5.8 (the list estimate). -/
  cwList : Char → ℚ
  /-- Width of the glyph "M" in Courier 5.5. -/
  mWidth : ℚ
  /-- Number of wrapped lines `multi_cell` produces for a given available
  width and text (the library's internal word-wrap). -/
  wrapLines : ℚ → String → Nat

/-- Source `get_string_width`: sum of the per-character widths of a string. -/
def strW (cw : Char → ℚ) (s : String) : ℚ := (s.data.map cw).sum

/-- Python `int()` applied to a rational: truncation toward zero. -/
def pyInt (q : ℚ) : ℤ := if 0 ≤ q then ⌊q⌋ else ⌈q⌉

/-- Page height (letter landscape, mm): 215.9. -/
def pageH : ℚ := 2159 / 10

/-- Page width (letter landscape, mm): 279.4. -/
def pageW : ℚ := 2794 / 10

/-- Outer margin: `self.margin = 6`. -/
def margin : ℚ := 6

/-- Column count: `self.col_count = 3`. -/
def colCount : Nat := 3

/-- Inter-column gap: `self.col_gap = 4`. -/
def colGap : ℚ := 4

/-- Top-of-content offset: `self.col_top = 18`. -/
def colTop : ℚ := 18

/-- Usable width: `self.w - 2 * self.margin`. -/
def usableW : ℚ := pageW - 2 * margin

/-- Column width: `(usable_w - (col_count - 1) * col_gap) / col_count`. -/
def colW : ℚ := (usableW - (colCount - 1 : ℕ) * colGap) / (colCount : ℚ)

/-- The page's bottom limit used by `_check_space`: `self.h - self.margin`. -/
def bottomLimit : ℚ := pageH - margin

/-- Vertical room of an empty column: `bottomLimit - colTop` (= 191.9). -/
def capacity : ℚ := bottomLimit - colTop

/-- Source `page_header(title)`: record the title, draw the banner (chrome), and
reset the vertical cursor to the top of content. -/
def pageHeader (t : String) (s : State) : State :=
  { s with
    title := t,
    events := s.events ++ [Ev.chrome t s.page],
    colY := colTop }

/-- Source `_check_space(needed)`: if the block would pass the bottom margin,
advance to the next column; when columns are exhausted, start a new page
(chrome redrawn with the continuation title) and reset to column 0.
Identical in both variants. -/
def checkSpace (needed : ℚ) (s : State) : State :=
  if s.colY + needed > bottomLimit then
    if s.colIdx + 1 ≥ colCount then
      let s1 : State :=
        { s with
          page := s.page + 1,
          colIdx := s.colIdx + 1,
          colY := colTop }
      let s2 := pageHeader ((s.title.replace " (cont.)" "") ++ " (cont.)") s1
      { s2 with colIdx := 0, colY := colTop }
    else
      { s with colIdx := s.colIdx + 1, colY := colTop }
  else s

/-- Estimated height of a code block: `len(lines) * 3.4 + 2`.  Throughout,
a code/body block's argument is its line list, i.e. the result of the
method's opening `text.strip().split("\n")` (always nonempty in Python). -/
def codeNeeded (lines : List String) : ℚ :=
  (lines.length : ℚ) * (17/5) + 2

/-- Estimated height of a body-text block: `len(lines) * 3.2 + 1`. -/
def bodyNeeded (lines : List String) : ℚ :=
  (lines.length : ℚ) * (16/5) + 1

/-- Character budget of a code line:
`int(available_w / self.get_string_width("M"))`. -/
def maxChars (M : Metrics) : ℕ := (pyInt ((colW - 2) / M.mWidth)).toNat

/-- The body-text truncation loop on a character list: drop trailing
characters while the string is nonempty and its measured width exceeds the
available width. -/
def truncChars (cw : Char → ℚ) (avail : ℚ) : List Char → List Char
  | [] => []
  | a :: rest =>
      if ((a :: rest).map cw).sum ≤ avail then a :: rest
      else truncChars cw avail (a :: rest).dropLast
  termination_by l => l.length
  decreasing_by simp [List.length_dropLast]

/-- The body-text truncation routine on strings. -/
def truncLine (cw : Char → ℚ) (avail : ℚ) (line : String) : String :=
  String.mk (truncChars cw avail line.data)

/-- Drawing part of `code_block` (after the space check): one background
rectangle of the reserved height with each line truncated to the character
budget; the cursor then moves to `y_start + needed + 0.5`. -/
def drawCode (M : Metrics) (lines : List String) (s : State) : State :=
  let needed := codeNeeded lines
  { s with
    events := s.events ++
      [Ev.codeRect (lines.map (fun l => l.take (maxChars M)))
         s.page s.colIdx s.colY needed],
    colY := s.colY + needed + 1/2 }

/-- Drawing part of `body_text` (after the space check): each line is
truncated by `truncLine` against `col_w - 3`; the cursor advances 3.2 per
line plus a trailing 1. -/
def drawBody (M : Metrics) (lines : List String) (s : State) : State :=
  { s with
    events := s.events ++
      [Ev.bodyBlock (lines.map (truncLine M.cwBody (colW - 3)))
         s.page s.colIdx s.colY (bodyNeeded lines)],
    colY := s.colY + (lines.length : ℚ) * (16/5) + 1 }

/-- Source `est_lines = max(1, int(width(full) / available_w) + 1)` of
`compact_list`, with `full = label + " " + ", ".join(items)` and
`available_w = col_w - 3`. -/
def estLines (M : Metrics) (label : String) (items : List String) : ℤ :=
  max 1 (pyInt (strW M.cwList (label ++ " " ++ String.intercalate ", " items)
                  / (colW - 3)) + 1)

/-- Height reserved by `compact_list`: `est_lines * 3.2 + 1`. -/
def listNeeded (M : Metrics) (label : String) (items : List String) : ℚ :=
  (estLines M label items : ℚ) * (16/5) + 1

/-- Drawing part of `compact_list` (after the space check): label cell and
`multi_cell` of the joined items; the cursor lands at the library-reported
end of the `multi_cell` plus 0.8. -/
def drawList (M : Metrics) (label : String) (items : List String)
    (s : State) : State :=
  let itemStr := String.intercalate ", " items
  let labelW := strW M.cwLabel (label ++ " ") + 1
  { s with
    events := s.events ++
      [Ev.listBlock label itemStr s.page s.colIdx s.colY
         (estLines M label items)],
    colY := s.colY +
      (M.wrapLines ((colW - 3) - labelW) itemStr : ℚ) * (16/5) + 4/5 }

/-- Drawing part of `section` (after the space check): a filled band of
height 5.5; the cursor advances 6.5. -/
def drawSection (t : String) (s : State) : State :=
  { s with
    events := s.events ++ [Ev.sectionHdr t s.page s.colIdx s.colY],
    colY := s.colY + 13/2 }

/-- A caller-issued block-placement call (the public methods shared by both
`CheatSheet` classes). -/
inductive Op where
  | section_ (t : String)
  | subsection (t : String)
  | codeBlock (lines : List String)
  | bodyText (lines : List String)
  | compactList (label : String) (items : List String)
  | spacer (h : ℚ)
  | newPage (t : String)
  deriving DecidableEq

/-- State after `build()`'s opening `add_page(); page_header(title)`. -/
def initState (t : String) : State :=
  pageHeader t
    { page := 1, colIdx := 0, colY := colTop, title := "",
      lastSub := none, pendingSub := none, events := [] }

namespace Review

/-- Source `subsection(title)` of the main variant: reserve room for the header
plus at least 2 code lines (`6 + 2 * 3.4 + 2`), draw the band, record the
orphan-prevention tuple, advance the cursor 5.5. -/
def subsection (t : String) (s : State) : State :=
  let s1 := checkSpace (6 + 2 * (17/5) + 2) s
  { s1 with
    events := s1.events ++ [Ev.subsectHdr t s1.page s1.colIdx s1.colY],
    lastSub := some (t, s1.colY, s1.page, s1.colIdx),
    colY := s1.colY + 11/2 }

/-- Source `_check_space_keep_subsect(needed)`: if a sub-header was just placed at
the current page/column and the content would overflow, white out the
orphaned header, rewind to its start offset, break with room for header
plus content, and redraw the header in the new location; otherwise clear
the record and fall back to `_check_space`. -/
def checkSpaceKeepSubsect (needed : ℚ) (s : State) : State :=
  match s.lastSub with
  | some (t, subY, subPage, subCol) =>
      if subPage = s.page ∧ subCol = s.colIdx ∧
         s.colY + needed > bottomLimit then
        let s1 : State :=
          { s with
            events := s.events ++
              [Ev.whiteRect s.page s.colIdx subY (s.colY - subY)],
            colY := subY }
        let s2 := checkSpace (11/2 + needed) s1
        { s2 with
          events := s2.events ++
            [Ev.subsectHdr t s2.page s2.colIdx s2.colY],
          colY := s2.colY + 11/2,
          lastSub := none }
      else checkSpace needed { s with lastSub := none }
  | none => checkSpace needed s

/-- Source `code_block(text)` of the main variant (argument already split into
lines). -/
def codeBlock (M : Metrics) (lines : List String) (s : State) : State :=
  drawCode M lines (checkSpaceKeepSubsect (codeNeeded lines) s)

/-- Source `body_text(text)` of the main variant (argument already split into
lines). -/
def bodyText (M : Metrics) (lines : List String) (s : State) : State :=
  drawBody M lines (checkSpaceKeepSubsect (bodyNeeded lines) s)

/-- Source `section(title)` of the main variant: clears the orphan record, then
reserves 7 and draws the band. -/
def section_ (t : String) (s : State) : State :=
  drawSection t (checkSpace 7 { s with lastSub := none })

/-- Source `compact_list(label, items)` of the main variant: note that it uses the
plain `_check_space` and does not touch `_last_subsect`. -/
def compactList (M : Metrics) (label : String) (items : List String)
    (s : State) : State :=
  drawList M label items (checkSpace (listNeeded M label items) s)

/-- Source `spacer(h)`: advance the cursor unconditionally. -/
def spacer (h : ℚ) (s : State) : State := { s with colY := s.colY + h }

/-- Source `new_page(title)` of the main variant. -/
def newPage (t : String) (s : State) : State :=
  let s1 := pageHeader t { s with page := s.page + 1 }
  { s1 with colIdx := 0, colY := colTop, lastSub := none }

/-- One placement call of the main variant. -/
def step (M : Metrics) (s : State) : Op → State
  | .section_ t => section_ t s
  | .subsection t => subsection t s
  | .codeBlock text => codeBlock M text s
  | .bodyText text => bodyText M text s
  | .compactList label items => compactList M label items s
  | .spacer h => spacer h s
  | .newPage t => newPage t s

/-- Run a sequence of placement calls of the main variant. -/
def run (M : Metrics) (s : State) (ops : List Op) : State :=
  ops.foldl (step M) s

end Review

namespace SysDesign

/-- Source `subsection(title)` of the SystemDesign variant: only records the
pending title; nothing is drawn. -/
def subsection (t : String) (s : State) : State :=
  { s with pendingSub := some t }

/-- Source `_flush_pending_subsect()`: draw the deferred sub-header band at the
current cursor, clear the record, advance 5.5. -/
def flushPendingSubsect (s : State) : State :=
  match s.pendingSub with
  | some t =>
      { s with
        pendingSub := none,
        events := s.events ++ [Ev.subsectHdr t s.page s.colIdx s.colY],
        colY := s.colY + 11/2 }
  | none => s

/-- Source `code_block(text)` of the SystemDesign variant: if a sub-header is
pending, reserve `5.5 + needed` and flush it first. -/
def codeBlock (M : Metrics) (lines : List String) (s : State) : State :=
  let needed := codeNeeded lines
  if s.pendingSub.isSome then
    drawCode M lines (flushPendingSubsect (checkSpace (11/2 + needed) s))
  else
    drawCode M lines (checkSpace needed s)

/-- Source `body_text(text)` of the SystemDesign variant (argument already split
into lines). -/
def bodyText (M : Metrics) (lines : List String) (s : State) : State :=
  let needed := bodyNeeded lines
  if s.pendingSub.isSome then
    drawBody M lines (flushPendingSubsect (checkSpace (11/2 + needed) s))
  else
    drawBody M lines (checkSpace needed s)

/-- Source `section(title)` of the SystemDesign variant: discards any pending
sub-header, then reserves 7 and draws the band. -/
def section_ (t : String) (s : State) : State :=
  drawSection t (checkSpace 7 { s with pendingSub := none })

/-- Source `compact_list(label, items)`: identical to the main variant; does not
touch the pending sub-header. -/
def compactList (M : Metrics) (label : String) (items : List String)
    (s : State) : State :=
  drawList M label items (checkSpace (listNeeded M label items) s)

/-- Source `spacer(h)`. -/
def spacer (h : ℚ) (s : State) : State := { s with colY := s.colY + h }

/-- Source `new_page(title)` of the SystemDesign variant: discards any pending
sub-header. -/
def newPage (t : String) (s : State) : State :=
  let s0 : State := { s with pendingSub := none }
  let s1 := pageHeader t { s0 with page := s0.page + 1 }
  { s1 with colIdx := 0, colY := colTop }

/-- One placement call of the SystemDesign variant. -/
def step (M : Metrics) (s : State) : Op → State
  | .section_ t => section_ t s
  | .subsection t => subsection t s
  | .codeBlock text => codeBlock M text s
  | .bodyText text => bodyText M text s
  | .compactList label items => compactList M label items s
  | .spacer h => spacer h s
  | .newPage t => newPage t s

/-- Run a sequence of placement calls of the SystemDesign variant. -/
def run (M : Metrics) (s : State) (ops : List Op) : State :=
  ops.foldl (step M) s

end SysDesign

/-- Does an event white out a sub-header band drawn at `(p, c, y)` (band
height 4.5)? -/
def coversHdr (p c : Nat) (y : ℚ) : Ev → Bool
  | .whiteRect p' c' y' h =>
      p == p' && c == c' && decide (y' ≤ y) && decide (y + 9/2 ≤ y' + h)
  | _ => false

/-- Number of sub-header bands titled `t` that remain visible in the final
output: headers not painted over by a later white-out rectangle. -/
def visibleCount (t : String) : List Ev → Nat
  | [] => 0
  | e :: rest =>
      (match e with
       | .subsectHdr t' p c y =>
           if t' == t && !(rest.any (coversHdr p c y)) then 1 else 0
       | _ => 0) + visibleCount t rest

/-- Is the event a sub-header band titled `t`? -/
def isHdrT (t : String) : Ev → Bool
  | .subsectHdr t' _ _ _ => t' == t
  | _ => false

/-- Number of sub-header bands titled `t` ever drawn (visible or not). -/
def hdrCount (t : String) (evs : List Ev) : Nat :=
  evs.countP (isHdrT t)

/-- Bottom edge of the content an event draws (`none` for chrome and for
the white-out, which are not content). -/
def evBottom : Ev → Option ℚ
  | .sectionHdr _ _ _ y => some (y + 11/2)
  | .subsectHdr _ _ _ y => some (y + 9/2)
  | .codeRect _ _ _ y h => some (y + h)
  | .bodyBlock _ _ _ y h => some (y + h)
  | .listBlock _ _ _ _ y _ => some (y + 3)
  | _ => none

/-- Concrete metrics used for witnesses: every character 1 wide, "M" 1
wide, every `multi_cell` one line. -/
def unitMetrics : Metrics :=
  ⟨fun _ => 1, fun _ => 1, fun _ => 1, 1, fun _ _ => 1⟩

/-! ### Basic lemmas about the space check -/

theorem checkSpace_lastSub (n : ℚ) (s : State) :
    (checkSpace n s).lastSub = s.lastSub := by
  unfold checkSpace pageHeader
  split_ifs <;> rfl

theorem checkSpace_pendingSub (n : ℚ) (s : State) :
    (checkSpace n s).pendingSub = s.pendingSub := by
  unfold checkSpace pageHeader
  split_ifs <;> rfl

theorem checkSpace_colIdx (n : ℚ) (s : State) (h : s.colIdx < colCount) :
    (checkSpace n s).colIdx < colCount := by
  unfold checkSpace pageHeader
  split_ifs with h1 h2
  · simp [colCount]
  · simpa using lt_of_not_ge h2
  · exact h

/-- After `_check_space`, either nothing moved (and the block fits where it
is), or the cursor is at the top of a (new) column. -/
theorem checkSpace_cases (n : ℚ) (s : State) :
    (checkSpace n s = s ∧ s.colY + n ≤ bottomLimit) ∨
      (checkSpace n s).colY = colTop := by
  unfold checkSpace pageHeader
  split_ifs with h1 h2
  · right; rfl
  · right; rfl
  · left; exact ⟨rfl, le_of_not_gt h1⟩

/-- If the block fits in an empty column, then after `_check_space` it fits
below the cursor. -/
theorem checkSpace_fits (n : ℚ) (s : State) (h : n ≤ capacity) :
    (checkSpace n s).colY + n ≤ bottomLimit := by
  rcases checkSpace_cases n s with ⟨he, hf⟩ | htop
  · rw [he]; exact hf
  · rw [htop]
    have : colTop + capacity = bottomLimit := by
      norm_num [capacity]
    linarith

/-- The events after `_check_space` are the old events, possibly followed
by the continuation-page chrome. -/
theorem checkSpace_events (n : ℚ) (s : State) :
    (checkSpace n s).events = s.events ∨
      (checkSpace n s).events = s.events ++
        [Ev.chrome ((s.title.replace " (cont.)" "") ++ " (cont.)")
          (s.page + 1)] := by
  unfold checkSpace pageHeader
  split_ifs
  · right; rfl
  · left; rfl
  · left; rfl

theorem cks_lastSub (n : ℚ) (s : State) :
    (Review.checkSpaceKeepSubsect n s).lastSub = none := by
  cases hs : s.lastSub with
  | none =>
      simp only [Review.checkSpaceKeepSubsect, hs]
      rw [checkSpace_lastSub]; exact hs
  | some v =>
      obtain ⟨t, subY, subPage, subCol⟩ := v
      simp only [Review.checkSpaceKeepSubsect, hs]
      split_ifs
      · rfl
      · rw [checkSpace_lastSub]

theorem cks_pendingSub (n : ℚ) (s : State) :
    (Review.checkSpaceKeepSubsect n s).pendingSub = s.pendingSub := by
  cases hs : s.lastSub with
  | none =>
      simp only [Review.checkSpaceKeepSubsect, hs]
      rw [checkSpace_pendingSub]
  | some v =>
      obtain ⟨t, subY, subPage, subCol⟩ := v
      simp only [Review.checkSpaceKeepSubsect, hs]
      split_ifs
      · simp [checkSpace_pendingSub]
      · rw [checkSpace_pendingSub]

theorem cks_colIdx (n : ℚ) (s : State) (h : s.colIdx < colCount) :
    (Review.checkSpaceKeepSubsect n s).colIdx < colCount := by
  cases hs : s.lastSub with
  | none =>
      simp only [Review.checkSpaceKeepSubsect, hs]
      exact checkSpace_colIdx n s h
  | some v =>
      obtain ⟨t, subY, subPage, subCol⟩ := v
      simp only [Review.checkSpaceKeepSubsect, hs]
      split_ifs
      · exact checkSpace_colIdx (11/2 + n) _ h
      · exact checkSpace_colIdx n _ h

/-- If the block plus a redrawn sub-header fits in an empty column, then
after `_check_space_keep_subsect` the block fits below the cursor. -/
theorem cks_fits (n : ℚ) (s : State) (h : 11/2 + n ≤ capacity) :
    (Review.checkSpaceKeepSubsect n s).colY + n ≤ bottomLimit := by
  cases hs : s.lastSub with
  | none =>
      simp only [Review.checkSpaceKeepSubsect, hs]
      exact checkSpace_fits n s (by linarith)
  | some v =>
      obtain ⟨t, subY, subPage, subCol⟩ := v
      simp only [Review.checkSpaceKeepSubsect, hs]
      split_ifs
      · have key : ∀ s' : State,
            (checkSpace (11/2 + n) s').colY + 11/2 + n ≤ bottomLimit := by
          intro s'
          have h2 := checkSpace_fits (11/2 + n) s' h
          linarith
        exact key _
      · exact checkSpace_fits n _ (by linarith)

theorem flush_colIdx (s : State) :
    (SysDesign.flushPendingSubsect s).colIdx = s.colIdx := by
  cases hs : s.pendingSub <;> simp only [SysDesign.flushPendingSubsect, hs]

theorem Review.step_colIdx (M : Metrics) (s : State) (o : Op)
    (h : s.colIdx < colCount) : (Review.step M s o).colIdx < colCount := by
  cases o with
  | section_ t =>
      simp only [Review.step, Review.section_, drawSection]
      exact checkSpace_colIdx 7 _ h
  | subsection t =>
      simp only [Review.step, Review.subsection]
      exact checkSpace_colIdx _ _ h
  | codeBlock text =>
      simp only [Review.step, Review.codeBlock, drawCode]
      exact cks_colIdx _ _ h
  | bodyText text =>
      simp only [Review.step, Review.bodyText, drawBody]
      exact cks_colIdx _ _ h
  | compactList label items =>
      simp only [Review.step, Review.compactList, drawList]
      exact checkSpace_colIdx _ _ h
  | spacer q => simpa [Review.step, Review.spacer] using h
  | newPage t => simp [Review.step, Review.newPage, pageHeader, colCount]

theorem sd_step_colIdx (M : Metrics) (s : State) (o : Op)
    (h : s.colIdx < colCount) : (SysDesign.step M s o).colIdx < colCount := by
  cases o with
  | section_ t =>
      simp only [SysDesign.step, SysDesign.section_, drawSection]
      exact checkSpace_colIdx 7 _ h
  | subsection t => simpa [SysDesign.step, SysDesign.subsection] using h
  | codeBlock text =>
      simp only [SysDesign.step, SysDesign.codeBlock, drawCode]
      split_ifs
      · rw [flush_colIdx]
        exact checkSpace_colIdx _ _ h
      · exact checkSpace_colIdx _ _ h
  | bodyText text =>
      simp only [SysDesign.step, SysDesign.bodyText, drawBody]
      split_ifs
      · rw [flush_colIdx]
        exact checkSpace_colIdx _ _ h
      · exact checkSpace_colIdx _ _ h
  | compactList label items =>
      simp only [SysDesign.step, SysDesign.compactList, drawList]
      exact checkSpace_colIdx _ _ h
  | spacer q => simpa [SysDesign.step, SysDesign.spacer] using h
  | newPage t => simp [SysDesign.step, SysDesign.newPage, pageHeader, colCount]

theorem Review.run_colIdx (M : Metrics) (s : State) (ops : List Op)
    (h : s.colIdx < colCount) : (Review.run M s ops).colIdx < colCount := by
  induction ops generalizing s with
  | nil => exact h
  | cons o rest ih => exact ih _ (Review.step_colIdx M s o h)

theorem sd_run_colIdx (M : Metrics) (s : State) (ops : List Op)
    (h : s.colIdx < colCount) : (SysDesign.run M s ops).colIdx < colCount := by
  induction ops generalizing s with
  | nil => exact h
  | cons o rest ih => exact ih _ (sd_step_colIdx M s o h)

/-- C7: for all pages and all sequences of block placements, after every
placement the cursor's column index satisfies `0 ≤ column index < column
count`, in both engine variants. -/
theorem claim_C7 (M : Metrics) (t : String) (ops : List Op) :
    0 ≤ (Review.run M (initState t) ops).colIdx ∧
    (Review.run M (initState t) ops).colIdx < colCount ∧
    0 ≤ (SysDesign.run M (initState t) ops).colIdx ∧
    (SysDesign.run M (initState t) ops).colIdx < colCount := by
  have h0 : (initState t).colIdx < colCount := by
    simp [initState, pageHeader, colCount]
  exact ⟨Nat.zero_le _, Review.run_colIdx M _ ops h0, Nat.zero_le _,
    sd_run_colIdx M _ ops h0⟩

/-- C2: before drawing a block of estimated height `H`, the engine compares
`cursor.offset + H` against the page's bottom margin.  If it does not
exceed, nothing moves; if it exceeds, the cursor advances to the next
column at top-of-content, or — when columns are exhausted — to column 0 of
a fresh page whose chrome is redrawn under the continuation title
(base title ++ " (cont.)").  The block is then drawn whole at the
re-evaluated location (a code block, for instance, is emitted as a single
rectangle after the check, never split). -/
theorem claim_C2 (s : State) (H : ℚ) :
    (s.colY + H ≤ bottomLimit → checkSpace H s = s) ∧
    (s.colY + H > bottomLimit →
      (checkSpace H s).colY = colTop ∧
      ((s.colIdx + 1 < colCount ∧
          checkSpace H s = { s with colIdx := s.colIdx + 1, colY := colTop }) ∨
       (colCount ≤ s.colIdx + 1 ∧
          (checkSpace H s).colIdx = 0 ∧
          (checkSpace H s).page = s.page + 1 ∧
          (checkSpace H s).title =
            (s.title.replace " (cont.)" "") ++ " (cont.)" ∧
          (checkSpace H s).events = s.events ++
            [Ev.chrome ((s.title.replace " (cont.)" "") ++ " (cont.)")
              (s.page + 1)]))) ∧
    (∀ (M : Metrics) (lines : List String),
      (Review.codeBlock M lines { s with lastSub := none }).events =
        (checkSpace (codeNeeded lines) { s with lastSub := none }).events ++
          [Ev.codeRect
            (lines.map (fun l => l.take (maxChars M)))
            (checkSpace (codeNeeded lines) { s with lastSub := none }).page
            (checkSpace (codeNeeded lines) { s with lastSub := none }).colIdx
            (checkSpace (codeNeeded lines) { s with lastSub := none }).colY
            (codeNeeded lines)]) := by
  refine ⟨fun h => ?_, fun h => ?_, fun M lines => ?_⟩
  · unfold checkSpace
    rw [if_neg (not_lt_of_ge h)]
  · unfold checkSpace
    rw [if_pos h]
    by_cases hc : s.colIdx + 1 ≥ colCount
    · rw [if_pos hc]
      exact ⟨rfl, Or.inr ⟨hc, rfl, rfl, rfl, rfl⟩⟩
    · rw [if_neg hc]
      exact ⟨rfl, Or.inl ⟨lt_of_not_ge hc, rfl⟩⟩
  · rfl

/-- Witness for C2 at a concrete state: a 300-high block at the top of a
fresh page overflows and the cursor lands at the top of the next column. -/
theorem claim_C2_witness :
    (initState "T").colY + 300 > bottomLimit ∧
    (checkSpace 300 (initState "T")).colY = colTop := by
  have h : (initState "T").colY + 300 > bottomLimit := by
    norm_num [initState, pageHeader, colTop, bottomLimit, pageH, margin]
  exact ⟨h, ((claim_C2 (initState "T") 300).2.1 h).1⟩

/-! ### Bottom-edge bounds for drawn content (claim C3) -/

/-- All the content the event draws stays above the bottom margin. -/
def evOk (e : Ev) : Prop := ∀ b, evBottom e = some b → b ≤ bottomLimit

/-- Size condition under which a code/body block is guaranteed to stay on
the page: its reserved height, plus a redrawn sub-header band, fits in an
empty column.  All other ops need no condition. -/
def fitsOp : Op → Prop
  | .codeBlock lines => 11/2 + codeNeeded lines ≤ capacity
  | .bodyText lines => 11/2 + bodyNeeded lines ≤ capacity
  | _ => True

theorem codeNeeded_nonneg (lines : List String) : 0 ≤ codeNeeded lines := by
  unfold codeNeeded
  positivity

theorem bodyNeeded_nonneg (lines : List String) : 0 ≤ bodyNeeded lines := by
  unfold bodyNeeded
  positivity

theorem one_le_estLines (M : Metrics) (label : String) (items : List String) :
    1 ≤ estLines M label items :=
  le_max_left 1 _

theorem checkSpace_events_ok (n : ℚ) (s : State)
    (h : ∀ e ∈ s.events, evOk e) :
    ∀ e ∈ (checkSpace n s).events, evOk e := by
  rcases checkSpace_events n s with he | he <;> rw [he]
  · exact h
  · intro e hm
    rcases List.mem_append.mp hm with h1 | h1
    · exact h e h1
    · simp only [List.mem_singleton] at h1
      subst h1
      intro b hb
      simp [evBottom] at hb

theorem cks_events_ok (n : ℚ) (s : State)
    (hcap : 11/2 + n ≤ capacity) (hn : 0 ≤ n)
    (h : ∀ e ∈ s.events, evOk e) :
    ∀ e ∈ (Review.checkSpaceKeepSubsect n s).events, evOk e := by
  cases hs : s.lastSub with
  | none =>
      simp only [Review.checkSpaceKeepSubsect, hs]
      exact checkSpace_events_ok n s h
  | some v =>
      obtain ⟨t, subY, subPage, subCol⟩ := v
      simp only [Review.checkSpaceKeepSubsect, hs]
      split_ifs with hcond
      · intro e hm
        simp only [] at hm
        rcases List.mem_append.mp hm with h1 | h1
        · refine checkSpace_events_ok (11/2 + n) _ ?_ e h1
          intro e' hm'
          rcases List.mem_append.mp hm' with h2 | h2
          · exact h e' h2
          · simp only [List.mem_singleton] at h2
            subst h2
            intro b hb
            simp [evBottom] at hb
        · simp only [List.mem_singleton] at h1
          subst h1
          intro b hb
          simp only [evBottom, Option.some.injEq] at hb
          subst hb
          have h2 := checkSpace_fits (11/2 + n)
            { s with
              lastSub := some (t, subY, subPage, subCol),
              events := s.events ++
                [Ev.whiteRect s.page s.colIdx subY (s.colY - subY)],
              colY := subY } hcap
          linarith
      · exact checkSpace_events_ok n _ h

theorem Review.step_events_ok (M : Metrics) (s : State) (o : Op)
    (hf : fitsOp o) (h : ∀ e ∈ s.events, evOk e) :
    ∀ e ∈ (Review.step M s o).events, evOk e := by
  cases o with
  | section_ t =>
      simp only [Review.step, Review.section_, drawSection]
      intro e hm
      rcases List.mem_append.mp hm with h1 | h1
      · exact checkSpace_events_ok 7 { s with lastSub := none } h e h1
      · simp only [List.mem_singleton] at h1
        subst h1
        intro b hb
        simp only [evBottom, Option.some.injEq] at hb
        subst hb
        have h2 := checkSpace_fits 7 { s with lastSub := none }
          (by norm_num [capacity, bottomLimit, colTop, pageH, margin])
        linarith
  | subsection t =>
      simp only [Review.step, Review.subsection]
      intro e hm
      rcases List.mem_append.mp hm with h1 | h1
      · exact checkSpace_events_ok _ _ h e h1
      · simp only [List.mem_singleton] at h1
        subst h1
        intro b hb
        simp only [evBottom, Option.some.injEq] at hb
        subst hb
        have h2 := checkSpace_fits (6 + 2 * (17/5) + 2) s
          (by norm_num [capacity, bottomLimit, colTop, pageH, margin])
        linarith
  | codeBlock text =>
      simp only [Review.step, Review.codeBlock, drawCode]
      intro e hm
      rcases List.mem_append.mp hm with h1 | h1
      · exact cks_events_ok _ _ hf (codeNeeded_nonneg text) h e h1
      · simp only [List.mem_singleton] at h1
        subst h1
        intro b hb
        simp only [evBottom, Option.some.injEq] at hb
        subst hb
        have h2 := cks_fits (codeNeeded text) s hf
        linarith
  | bodyText text =>
      simp only [Review.step, Review.bodyText, drawBody]
      intro e hm
      rcases List.mem_append.mp hm with h1 | h1
      · exact cks_events_ok _ _ hf (bodyNeeded_nonneg text) h e h1
      · simp only [List.mem_singleton] at h1
        subst h1
        intro b hb
        simp only [evBottom, Option.some.injEq] at hb
        subst hb
        have h2 := cks_fits (bodyNeeded text) s hf
        linarith
  | compactList label items =>
      simp only [Review.step, Review.compactList, drawList]
      intro e hm
      rcases List.mem_append.mp hm with h1 | h1
      · exact checkSpace_events_ok _ _ h e h1
      · simp only [List.mem_singleton] at h1
        subst h1
        intro b hb
        simp only [evBottom, Option.some.injEq] at hb
        subst hb
        rcases checkSpace_cases (listNeeded M label items) s with ⟨he, hfit⟩ | htop
        · rw [he]
          have h1 : (1 : ℚ) ≤ (estLines M label items : ℚ) := by
            exact_mod_cast one_le_estLines M label items
          have h4 : (4 : ℚ) ≤ listNeeded M label items := by
            unfold listNeeded
            nlinarith
          linarith
        · rw [htop]
          norm_num [colTop, bottomLimit, pageH, margin]
  | spacer q =>
      simpa [Review.step, Review.spacer] using h
  | newPage t =>
      simp only [Review.step, Review.newPage, pageHeader]
      intro e hm
      rcases List.mem_append.mp hm with h1 | h1
      · exact h e h1
      · simp only [List.mem_singleton] at h1
        subst h1
        intro b hb
        simp [evBottom] at hb

theorem Review.run_events_ok (M : Metrics) (s : State) (ops : List Op)
    (hf : ∀ o ∈ ops, fitsOp o) (h : ∀ e ∈ s.events, evOk e) :
    ∀ e ∈ (Review.run M s ops).events, evOk e := by
  induction ops generalizing s with
  | nil => exact h
  | cons o rest ih =>
      exact ih _ (fun o' ho' => hf o' (List.mem_cons_of_mem o ho'))
        (Review.step_events_ok M s o (hf o (List.mem_cons_self o rest)) h)

/-- C3 counterexample: the claim quantifies over all placements including
spacers; a single `spacer(200)` from a fresh page pushes the cursor offset
to 218, past the bottom margin 209.9. -/
theorem claim_C3_cex :
    (Review.run unitMetrics (initState "T") [Op.spacer 200]).colY >
      bottomLimit := by
  norm_num [Review.run, Review.step, Review.spacer, initState, pageHeader,
    colTop, bottomLimit, pageH, margin]

/-- C3 amended: the cursor offset itself can pass the bottom margin (after
a spacer, or through a block's own trailing gap), but for every sequence of
placements in which each code/body block, together with a redrawn
sub-header band, fits in an empty column, every piece of drawn content
(headers, code rectangles, body lines, list labels) has its bottom edge
within the page's bottom margin. -/
theorem claim_C3_amended (M : Metrics) (t : String) (ops : List Op)
    (hf : ∀ o ∈ ops, fitsOp o) :
    ∀ e ∈ (Review.run M (initState t) ops).events, evOk e := by
  refine Review.run_events_ok M _ ops hf ?_
  intro e hm
  simp only [initState, pageHeader, List.nil_append,
    List.mem_singleton] at hm
  subst hm
  intro b hb
  simp [evBottom] at hb

/-- Witness for the amended C3 at a concrete run mixing a section, a code
block, an off-page spacer and a body block. -/
theorem claim_C3_amended_witness :
    (∀ o ∈ [Op.section_ "A", Op.codeBlock ["x"], Op.spacer 300,
            Op.bodyText ["y", "z"]], fitsOp o) ∧
    (∀ e ∈ (Review.run unitMetrics (initState "T")
        [Op.section_ "A", Op.codeBlock ["x"], Op.spacer 300,
         Op.bodyText ["y", "z"]]).events, evOk e) := by
  have hf : ∀ o ∈ [Op.section_ "A", Op.codeBlock ["x"], Op.spacer 300,
      Op.bodyText ["y", "z"]], fitsOp o := by
    intro o ho
    fin_cases ho <;>
      norm_num [fitsOp, codeNeeded, bodyNeeded, capacity, bottomLimit,
        colTop, pageH, margin]
  exact ⟨hf, claim_C3_amended unitMetrics "T" _ hf⟩

/-- C4 counterexample: the claim says the pending header record is
destroyed by the next successful placement of ANY block type, but
`compact_list` (and `spacer`) never touch `_last_subsect`: after
`subsection "S"` followed by a successfully placed `compact_list`, the
record is still alive. -/
theorem claim_C4_cex :
    (Review.run unitMetrics (initState "T")
      [Op.subsection "S", Op.compactList "L" ["a"]]).lastSub ≠ none := by
  norm_num [Review.run, Review.step, Review.subsection, Review.compactList,
    initState, pageHeader, checkSpace, colTop, bottomLimit, pageH, margin,
    drawList, estLines, listNeeded, strW, unitMetrics, pyInt, colW, usableW,
    pageW, colGap, colCount]
  split <;> split <;> simp

/-- C4 amended: `_last_subsect` is a single optional field (so at most one
pending header record exists), created by `subsection` with the drawn
location, and cleared by the next `code_block` or `body_text` placement
(with or without orphan correction), by `section`, and by `new_page` — but
not by `compact_list` or `spacer` placements. -/
theorem claim_C4_amended (M : Metrics) (s : State) (o : Op) (u : String)
    (h : (∃ l, o = Op.codeBlock l) ∨ (∃ l, o = Op.bodyText l) ∨
         (∃ v, o = Op.section_ v) ∨ (∃ v, o = Op.newPage v)) :
    (Review.step M s o).lastSub = none ∧
    (Review.step M s (Op.subsection u)).lastSub =
      some (u, (checkSpace (6 + 2 * (17/5) + 2) s).colY,
            (checkSpace (6 + 2 * (17/5) + 2) s).page,
            (checkSpace (6 + 2 * (17/5) + 2) s).colIdx) := by
  refine ⟨?_, rfl⟩
  rcases h with ⟨l, rfl⟩ | ⟨l, rfl⟩ | ⟨v, rfl⟩ | ⟨v, rfl⟩
  · simp only [Review.step, Review.codeBlock, drawCode]
    exact cks_lastSub _ _
  · simp only [Review.step, Review.bodyText, drawBody]
    exact cks_lastSub _ _
  · show (checkSpace 7 { s with lastSub := none }).lastSub = none
    rw [checkSpace_lastSub]
  · rfl

/-- Witness for the amended C4 at a concrete state and a concrete clearing
placement (a one-line code block). -/
theorem claim_C4_amended_witness :
    (Review.step unitMetrics (initState "T")
        (Op.codeBlock ["x"])).lastSub = none ∧
    (Review.step unitMetrics (initState "T")
        (Op.subsection "S")).lastSub =
      some ("S", (checkSpace (6 + 2 * (17/5) + 2) (initState "T")).colY,
            (checkSpace (6 + 2 * (17/5) + 2) (initState "T")).page,
            (checkSpace (6 + 2 * (17/5) + 2) (initState "T")).colIdx) :=
  claim_C4_amended unitMetrics (initState "T") (Op.codeBlock ["x"]) "S"
    (Or.inl ⟨["x"], rfl⟩)

/-- C5 counterexample: in the SystemDesign variant, `subsection` reserves
nothing and draws nothing before returning — it only records the pending
title.  After the call the event trace and the cursor are unchanged. -/
theorem claim_C5_cex :
    (SysDesign.run unitMetrics (initState "T") [Op.subsection "S"]).events =
      (initState "T").events ∧
    (SysDesign.run unitMetrics (initState "T") [Op.subsection "S"]).colY =
      (initState "T").colY :=
  ⟨rfl, rfl⟩

/-- C5 amended: only the main variant's `subsection` behaves as claimed —
it reserves a fixed band of `6 + 2*3.4 + 2` (header plus two code lines) at
call time, which always fits after the overflow check, and draws the header
band at the resulting cursor before returning.  The SystemDesign variant's
`subsection` merely records the title and draws nothing until the next
code/body block. -/
theorem claim_C5_amended (t : String) (s : State) :
    (Review.subsection t s).events =
      (checkSpace (6 + 2 * (17/5) + 2) s).events ++
        [Ev.subsectHdr t (checkSpace (6 + 2 * (17/5) + 2) s).page
          (checkSpace (6 + 2 * (17/5) + 2) s).colIdx
          (checkSpace (6 + 2 * (17/5) + 2) s).colY] ∧
    (Review.subsection t s).colY =
      (checkSpace (6 + 2 * (17/5) + 2) s).colY + 11/2 ∧
    (checkSpace (6 + 2 * (17/5) + 2) s).colY + (6 + 2 * (17/5) + 2) ≤
      bottomLimit ∧
    (SysDesign.subsection t s).events = s.events ∧
    (SysDesign.subsection t s).colY = s.colY ∧
    (SysDesign.subsection t s).pendingSub = some t := by
  refine ⟨rfl, rfl, ?_, rfl, rfl, rfl⟩
  exact checkSpace_fits _ s
    (by norm_num [capacity, bottomLimit, colTop, pageH, margin])

/-- C6 counterexample: the two engine copies are not behaviorally
identical.  On the one-call sequence `subsection "S"`, the main variant
draws the header band immediately while the SystemDesign variant draws
nothing, so the resulting states (in particular the drawn-block traces)
differ. -/
theorem claim_C6_cex :
    Review.run unitMetrics (initState "T") [Op.subsection "S"] ≠
    SysDesign.run unitMetrics (initState "T") [Op.subsection "S"] := by
  intro h
  have h2 := congrArg State.events h
  norm_num [Review.run, SysDesign.run, Review.step, SysDesign.step,
    Review.subsection, SysDesign.subsection, initState, pageHeader,
    checkSpace, colTop, bottomLimit, pageH, margin, colCount] at h2

theorem setLastSub_none (s : State) (h : s.lastSub = none) :
    { s with lastSub := none } = s := by
  cases s
  simp_all

theorem setPendingSub_none (s : State) (h : s.pendingSub = none) :
    { s with pendingSub := none } = s := by
  cases s
  simp_all

theorem cks_of_none (n : ℚ) (s : State) (h : s.lastSub = none) :
    Review.checkSpaceKeepSubsect n s = checkSpace n s := by
  simp only [Review.checkSpaceKeepSubsect, h]

theorem step_eq_of_noSub (M : Metrics) (s : State) (o : Op)
    (hls : s.lastSub = none) (hps : s.pendingSub = none)
    (ho : ∀ u, o ≠ Op.subsection u) :
    Review.step M s o = SysDesign.step M s o ∧
    (Review.step M s o).lastSub = none ∧
    (Review.step M s o).pendingSub = none := by
  cases o with
  | section_ t =>
      have e1 : ({ s with lastSub := none } : State) =
          { s with pendingSub := none } := by
        rw [setLastSub_none s hls, setPendingSub_none s hps]
      refine ⟨?_, ?_, ?_⟩
      · simp only [Review.step, SysDesign.step, Review.section_,
          SysDesign.section_, e1]
      · show (checkSpace 7 { s with lastSub := none }).lastSub = none
        rw [checkSpace_lastSub]
      · show (checkSpace 7 { s with lastSub := none }).pendingSub = none
        rw [checkSpace_pendingSub]; exact hps
  | subsection t => exact absurd rfl (ho t)
  | codeBlock l =>
      have hn : s.pendingSub.isSome = false := by rw [hps]; rfl
      refine ⟨?_, ?_, ?_⟩
      · simp only [Review.step, SysDesign.step, Review.codeBlock,
          SysDesign.codeBlock, cks_of_none _ s hls, hn, Bool.false_eq_true,
          if_false]
      · show (Review.checkSpaceKeepSubsect (codeNeeded l) s).lastSub = none
        exact cks_lastSub _ _
      · show (Review.checkSpaceKeepSubsect (codeNeeded l) s).pendingSub =
          none
        rw [cks_pendingSub]; exact hps
  | bodyText l =>
      have hn : s.pendingSub.isSome = false := by rw [hps]; rfl
      refine ⟨?_, ?_, ?_⟩
      · simp only [Review.step, SysDesign.step, Review.bodyText,
          SysDesign.bodyText, cks_of_none _ s hls, hn, Bool.false_eq_true,
          if_false]
      · show (Review.checkSpaceKeepSubsect (bodyNeeded l) s).lastSub = none
        exact cks_lastSub _ _
      · show (Review.checkSpaceKeepSubsect (bodyNeeded l) s).pendingSub =
          none
        rw [cks_pendingSub]; exact hps
  | compactList label items =>
      refine ⟨rfl, ?_, ?_⟩
      · show (checkSpace (listNeeded M label items) s).lastSub = none
        rw [checkSpace_lastSub]; exact hls
      · show (checkSpace (listNeeded M label items) s).pendingSub = none
        rw [checkSpace_pendingSub]; exact hps
  | spacer q => exact ⟨rfl, hls, hps⟩
  | newPage t =>
      cases s
      simp_all [Review.step, SysDesign.step, Review.newPage,
        SysDesign.newPage, pageHeader]
  

theorem run_eq_of_noSub (M : Metrics) (s : State) (ops : List Op)
    (hls : s.lastSub = none) (hps : s.pendingSub = none)
    (ho : ∀ o ∈ ops, ∀ u, o ≠ Op.subsection u) :
    Review.run M s ops = SysDesign.run M s ops := by
  induction ops generalizing s with
  | nil => rfl
  | cons o rest ih =>
      obtain ⟨heq, hls2, hps2⟩ :=
        step_eq_of_noSub M s o hls hps (ho o (List.mem_cons_self o rest))
      show Review.run M (Review.step M s o) rest =
        SysDesign.run M (SysDesign.step M s o) rest
      rw [← heq]
      exact ih _ hls2 hps2
        (fun o2 ho2 u => ho o2 (List.mem_cons_of_mem o ho2) u)

/-- C6 amended: the two copies are not identical in general (the
counterexample is a `subsection` call), but they are behaviorally
identical on every placement sequence that contains no `subsection` call:
both produce the same final state, and in particular the same sequence of
drawn blocks at the same page/column/offset locations. -/
theorem claim_C6_amended (M : Metrics) (t : String) (ops : List Op)
    (h : ∀ o ∈ ops, ∀ u, o ≠ Op.subsection u) :
    Review.run M (initState t) ops = SysDesign.run M (initState t) ops :=
  run_eq_of_noSub M _ ops rfl rfl h

/-- Witness for the amended C6 on a concrete subsection-free sequence
covering every other block type. -/
theorem claim_C6_amended_witness :
    (∀ o ∈ [Op.section_ "A", Op.codeBlock ["x"], Op.newPage "B",
            Op.compactList "L" ["i"], Op.spacer 2, Op.bodyText ["t"]],
      ∀ u, o ≠ Op.subsection u) ∧
    Review.run unitMetrics (initState "T")
      [Op.section_ "A", Op.codeBlock ["x"], Op.newPage "B",
       Op.compactList "L" ["i"], Op.spacer 2, Op.bodyText ["t"]] =
    SysDesign.run unitMetrics (initState "T")
      [Op.section_ "A", Op.codeBlock ["x"], Op.newPage "B",
       Op.compactList "L" ["i"], Op.spacer 2, Op.bodyText ["t"]] := by
  have h : ∀ o ∈ [Op.section_ "A", Op.codeBlock ["x"], Op.newPage "B",
      Op.compactList "L" ["i"], Op.spacer 2, Op.bodyText ["t"]],
      ∀ u, o ≠ Op.subsection u := by
    intro o ho u
    fin_cases ho <;> simp
  exact ⟨h, claim_C6_amended unitMetrics "T" _ h⟩

/-! ### The body-text truncation routine (claim C8) -/

theorem truncChars_spec (cw : Char → ℚ) (avail : ℚ)
    (hav : 0 ≤ avail) (l : List Char) :
    ((truncChars cw avail l).map cw).sum ≤ avail ∧
    ∃ t2, truncChars cw avail l ++ t2 = l := by
  generalize hn : l.length = n
  induction n using Nat.strong_induction_on generalizing l with
  | _ n ih =>
    match l with
    | [] =>
        refine ⟨by simpa [truncChars] using hav, [], by simp [truncChars]⟩
    | a :: rest =>
        rw [truncChars]
        split_ifs with hfit
        · exact ⟨hfit, [], by simp⟩
        · have hne : (a :: rest) ≠ [] := by simp
          have hlen : (a :: rest).dropLast.length < n := by
            subst hn
            simp [List.length_dropLast]
          obtain ⟨hw, t2, ht⟩ := ih _ hlen (a :: rest).dropLast rfl
          refine ⟨hw, t2 ++ [(a :: rest).getLast hne], ?_⟩
          rw [← List.append_assoc, ht, List.dropLast_append_getLast hne]

/-- C8 counterexample: the truncation routine is not a STRICT prefix in
general — on a line that already fits the available width it returns the
line unchanged (no character dropped), so the result is the whole line,
not a strict prefix. -/
theorem claim_C8_cex :
    truncLine (fun _ => 1) (colW - 3) "a" = "a" ∧
    ¬ ∃ t2, t2 ≠ [] ∧
      (truncLine (fun _ => 1) (colW - 3) "a").data ++ t2 = "a".data := by
  have h1 : truncLine (fun _ => 1) (colW - 3) "a" = "a" := by
    have hd : "a".data = ['a'] := rfl
    rw [truncLine, hd, truncChars, if_pos]
    · norm_num [colW, usableW, pageW, margin, colGap, colCount]
  refine ⟨h1, ?_⟩
  rintro ⟨t2, hne, happ⟩
  rw [h1] at happ
  exact hne (by simpa using happ)

/-- C8 amended: for every line, the truncation routine used by `body_text`
returns a string whose measured width is at most the available column
width, and the result is a (not necessarily strict) prefix of the original
line — characters are never reordered, replaced or padded; it equals the
whole line exactly when the line already fits. -/
theorem claim_C8_amended (cw : Char → ℚ) (line : String) (avail : ℚ)
    (hav : 0 ≤ avail) :
    strW cw (truncLine cw avail line) ≤ avail ∧
    ∃ t2, (truncLine cw avail line).data ++ t2 = line.data := by
  have h := truncChars_spec cw avail hav line.data
  exact ⟨by simpa [strW, truncLine] using h.1, h.2⟩

/-- Witness for the amended C8: the line "abc" against available width 2
with unit character widths. -/
theorem claim_C8_amended_witness :
    (0:ℚ) ≤ 2 ∧
    (strW (fun _ => 1) (truncLine (fun _ => 1) 2 "abc") ≤ 2 ∧
     ∃ t2, (truncLine (fun _ => 1) 2 "abc").data ++ t2 = "abc".data) :=
  ⟨by norm_num, claim_C8_amended (fun _ => 1) "abc" 2 (by norm_num)⟩

/-- C9: whenever the full rendered text of a labeled list (label plus
comma-joined items) measures wider than 3 times the column width,
`compact_list` computes `est_lines ≥ 4` and reserves the proportional
height `est_lines * 3.2 + 1` rather than a fixed 1-line amount. -/
theorem claim_C9 (M : Metrics) (label : String) (items : List String)
    (h : strW M.cwList (label ++ " " ++ String.intercalate ", " items) >
      3 * colW) :
    4 ≤ estLines M label items ∧
    listNeeded M label items = (estLines M label items : ℚ) * (16/5) + 1 := by
  refine ⟨?_, rfl⟩
  have hcol : colW = 1297/15 := by
    norm_num [colW, usableW, pageW, margin, colGap, colCount]
  set w := strW M.cwList (label ++ " " ++ String.intercalate ", " items)
    with hw
  have hq : (3:ℚ) ≤ w / (colW - 3) := by
    rw [hcol]
    rw [show (1297:ℚ)/15 - 3 = 1252/15 by norm_num]
    rw [le_div_iff₀ (by norm_num : (0:ℚ) < 1252/15)]
    rw [hcol] at h
    linarith
  have h0 : 0 ≤ w / (colW - 3) := le_trans (by norm_num) hq
  unfold estLines pyInt
  rw [← hw, if_pos h0]
  have hfl : (3:ℤ) ≤ ⌊w / (colW - 3)⌋ := Int.le_floor.mpr (by exact_mod_cast hq)
  have h4 : (4:ℤ) ≤ ⌊w / (colW - 3)⌋ + 1 := by linarith
  exact le_trans h4 (le_max_right 1 _)

/-- Witness for C9: with every list-font character 300 wide, the list
`compact_list("L", ["a"])` measures 900 > 3 x column width. -/
theorem claim_C9_witness :
    strW (fun _ => (300:ℚ)) ("L" ++ " " ++ String.intercalate ", " ["a"]) >
      3 * colW ∧
    4 ≤ estLines ⟨fun _ => 1, fun _ => 1, fun _ => 300, 1, fun _ _ => 1⟩
        "L" ["a"] ∧
    listNeeded ⟨fun _ => 1, fun _ => 1, fun _ => 300, 1, fun _ _ => 1⟩
        "L" ["a"] =
      (estLines ⟨fun _ => 1, fun _ => 1, fun _ => 300, 1, fun _ _ => 1⟩
        "L" ["a"] : ℚ) * (16/5) + 1 := by
  have h : strW (fun _ => (300:ℚ))
      ("L" ++ " " ++ String.intercalate ", " ["a"]) > 3 * colW := by
    have hd : ("L" ++ " " ++ String.intercalate ", " ["a"]).data =
        ['L', ' ', 'a'] := rfl
    rw [strW, hd]
    norm_num [colW, usableW, pageW, margin, colGap, colCount]
  obtain ⟨h1, h2⟩ := claim_C9
    ⟨fun _ => 1, fun _ => 1, fun _ => 300, 1, fun _ _ => 1⟩ "L" ["a"] h
  exact ⟨h, h1, h2⟩

theorem checkSpace_hdrCount (t : String) (n : ℚ) (s : State) :
    hdrCount t (checkSpace n s).events = hdrCount t s.events := by
  rcases checkSpace_events n s with he | he <;> rw [he]
  simp [hdrCount, List.countP_append, List.countP_cons, isHdrT]

/-- C10 counterexample: in the SystemDesign variant a pending sub-header
IS rendered even when the next placement call after `subsection` is a
`compact_list` (which neither flushes nor discards it): in the sequence
subsection, compact_list, code_block the header "T" still appears in the
output, contradicting "only ever rendered when the next placement call
after subsection is code_block or body_text". -/
theorem claim_C10_cex :
    hdrCount "T" (SysDesign.run unitMetrics (initState "T0")
      [Op.subsection "T", Op.compactList "L" ["a"],
       Op.codeBlock ["x"]]).events = 1 := by
  have hi : String.intercalate ", " ["a"] = "a" := rfl
  have hd : ("L" ++ " " ++ "a").data = ['L', ' ', 'a'] := rfl
  norm_num [SysDesign.run, SysDesign.step, SysDesign.subsection,
    SysDesign.compactList, SysDesign.codeBlock, SysDesign.flushPendingSubsect,
    drawList, drawCode, initState, pageHeader, checkSpace, colTop,
    bottomLimit, pageH, margin, colCount, estLines, listNeeded, strW,
    unitMetrics, pyInt, colW, usableW, pageW, colGap, codeNeeded, hi, hd,
    hdrCount, List.countP_append, List.countP_cons, isHdrT]

/-- C10 amended: in the SystemDesign variant, when a sub-header titled `t`
is pending: a following `subsection` supersedes it (the old title is
discarded, nothing drawn), `section` and `new_page` discard it (nothing
drawn), `code_block` and `body_text` flush it — drawing the band titled
`t` exactly once — and `compact_list` and `spacer` leave it pending and
draw no band; so the pending header is rendered exactly when the first
code/body block arrives before any subsection/section/new_page. -/
theorem claim_C10_amended (M : Metrics) (s : State) (t u : String)
    (l : List String) (label : String) (items : List String) (q : ℚ)
    (hp : s.pendingSub = some t) :
    ((SysDesign.step M s (Op.subsection u)).pendingSub = some u ∧
      hdrCount t (SysDesign.step M s (Op.subsection u)).events =
        hdrCount t s.events) ∧
    ((SysDesign.step M s (Op.section_ u)).pendingSub = none ∧
      hdrCount t (SysDesign.step M s (Op.section_ u)).events =
        hdrCount t s.events) ∧
    ((SysDesign.step M s (Op.newPage u)).pendingSub = none ∧
      hdrCount t (SysDesign.step M s (Op.newPage u)).events =
        hdrCount t s.events) ∧
    ((SysDesign.step M s (Op.codeBlock l)).pendingSub = none ∧
      hdrCount t (SysDesign.step M s (Op.codeBlock l)).events =
        hdrCount t s.events + 1) ∧
    ((SysDesign.step M s (Op.bodyText l)).pendingSub = none ∧
      hdrCount t (SysDesign.step M s (Op.bodyText l)).events =
        hdrCount t s.events + 1) ∧
    ((SysDesign.step M s (Op.compactList label items)).pendingSub = some t ∧
      hdrCount t (SysDesign.step M s (Op.compactList label items)).events =
        hdrCount t s.events) ∧
    ((SysDesign.step M s (Op.spacer q)).pendingSub = some t ∧
      hdrCount t (SysDesign.step M s (Op.spacer q)).events =
        hdrCount t s.events) := by
  have hcsC : (checkSpace (11/2 + codeNeeded l) s).pendingSub = some t := by
    rw [checkSpace_pendingSub]; exact hp
  have hcsB : (checkSpace (11/2 + bodyNeeded l) s).pendingSub = some t := by
    rw [checkSpace_pendingSub]; exact hp
  refine ⟨⟨rfl, rfl⟩, ⟨?_, ?_⟩, ⟨rfl, ?_⟩, ⟨?_, ?_⟩, ⟨?_, ?_⟩,
    ⟨?_, ?_⟩, ⟨hp, rfl⟩⟩
  · show (checkSpace 7 { s with pendingSub := none }).pendingSub = none
    rw [checkSpace_pendingSub]
  · show hdrCount t ((checkSpace 7 { s with pendingSub := none }).events ++
      [Ev.sectionHdr u (checkSpace 7 { s with pendingSub := none }).page
        (checkSpace 7 { s with pendingSub := none }).colIdx
        (checkSpace 7 { s with pendingSub := none }).colY]) =
      hdrCount t s.events
    rw [hdrCount, List.countP_append]
    have h2 := checkSpace_hdrCount t 7 { s with pendingSub := none }
    simp only [hdrCount] at h2
    rw [h2]
    simp only [hdrCount, List.countP_cons, List.countP_nil, isHdrT]
    rfl
  · show hdrCount t (s.events ++ [Ev.chrome u (s.page + 1)]) =
      hdrCount t s.events
    simp [hdrCount, List.countP_append, List.countP_cons, isHdrT]
  · simp only [SysDesign.step, SysDesign.codeBlock, hp, Option.isSome_some,
      if_true, SysDesign.flushPendingSubsect, hcsC, drawCode]
  · simp only [SysDesign.step, SysDesign.codeBlock, hp, Option.isSome_some,
      if_true, SysDesign.flushPendingSubsect, hcsC, drawCode]
    rw [hdrCount, List.countP_append, List.countP_append]
    have h2 := checkSpace_hdrCount t (11/2 + codeNeeded l) s
    simp only [hdrCount] at h2
    rw [h2]
    simp [isHdrT, List.countP_cons, hdrCount]
  · simp only [SysDesign.step, SysDesign.bodyText, hp, Option.isSome_some,
      if_true, SysDesign.flushPendingSubsect, hcsB, drawBody]
  · simp only [SysDesign.step, SysDesign.bodyText, hp, Option.isSome_some,
      if_true, SysDesign.flushPendingSubsect, hcsB, drawBody]
    rw [hdrCount, List.countP_append, List.countP_append]
    have h2 := checkSpace_hdrCount t (11/2 + bodyNeeded l) s
    simp only [hdrCount] at h2
    rw [h2]
    simp [isHdrT, List.countP_cons, hdrCount]
  · show (checkSpace (listNeeded M label items) s).pendingSub = some t
    rw [checkSpace_pendingSub]; exact hp
  · show hdrCount t ((checkSpace (listNeeded M label items) s).events ++
      [Ev.listBlock label (String.intercalate ", " items)
        (checkSpace (listNeeded M label items) s).page
        (checkSpace (listNeeded M label items) s).colIdx
        (checkSpace (listNeeded M label items) s).colY
        (estLines M label items)]) = hdrCount t s.events
    rw [hdrCount, List.countP_append]
    have h2 := checkSpace_hdrCount t (listNeeded M label items) s
    simp only [hdrCount] at h2
    rw [h2]
    simp only [hdrCount, List.countP_cons, List.countP_nil, isHdrT]
    rfl

/-- Witness for the amended C10: from a state with header "T" pending, a
code block flushes it — the pending record is cleared and the band "T" is
drawn exactly once. -/
theorem claim_C10_amended_witness :
    (SysDesign.step unitMetrics (SysDesign.subsection "T" (initState "X"))
        (Op.codeBlock ["x"])).pendingSub = none ∧
    hdrCount "T" (SysDesign.step unitMetrics
        (SysDesign.subsection "T" (initState "X"))
        (Op.codeBlock ["x"])).events =
      hdrCount "T" (SysDesign.subsection "T" (initState "X")).events + 1 :=
  (claim_C10_amended unitMetrics (SysDesign.subsection "T" (initState "X"))
    "T" "U" ["x"] "L" ["a"] 2 rfl).2.2.2.1

/-! ### Orphan correction (claim C1) -/

/-- Reserved height of the next block, as computed by `code_block` /
`body_text`. -/
def blockNeeded : Op → ℚ
  | .codeBlock lines => codeNeeded lines
  | .bodyText lines => bodyNeeded lines
  | _ => 0

/-- The single content event a code/body placement draws, at a given
location. -/
def blockEv (M : Metrics) (o : Op) (p c : Nat) (y : ℚ) : Ev :=
  match o with
  | .codeBlock lines =>
      Ev.codeRect (lines.map (fun l => l.take (maxChars M))) p c y
        (codeNeeded lines)
  | .bodyText lines =>
      Ev.bodyBlock (lines.map (truncLine M.cwBody (colW - 3))) p c y
        (bodyNeeded lines)
  | _ => Ev.chrome "" 0

theorem visibleCount_cons_of_not_hdr (t : String) (e : Ev) (rest : List Ev)
    (h : isHdrT t e = false) :
    visibleCount t (e :: rest) = visibleCount t rest := by
  cases e <;> simp_all [visibleCount, isHdrT]

theorem visibleCount_append_of_no_hdr (t : String) (xs ys : List Ev)
    (h : ∀ e ∈ xs, isHdrT t e = false) :
    visibleCount t (xs ++ ys) = visibleCount t ys := by
  induction xs with
  | nil => rfl
  | cons e rest ih =>
      rw [List.cons_append,
        visibleCount_cons_of_not_hdr t e _ (h e (List.mem_cons_self e rest))]
      exact ih (fun e2 h2 => h e2 (List.mem_cons_of_mem _ h2))

theorem visibleCount_append_nonwhite (t : String) (E : List Ev) (e : Ev)
    (he : isHdrT t e = false)
    (hw : ∀ p c y, coversHdr p c y e = false) :
    visibleCount t (E ++ [e]) = visibleCount t E := by
  induction E with
  | nil =>
      rw [List.nil_append, visibleCount_cons_of_not_hdr t e [] he]
  | cons f rest ih =>
      rw [List.cons_append]
      cases f with
      | subsectHdr t2 p c y =>
          simp only [visibleCount, ih, List.any_append, List.any_cons,
            List.any_nil, hw, Bool.or_false]
      | chrome u p => simp only [visibleCount, ih]
      | sectionHdr u p c y => simp only [visibleCount, ih]
      | whiteRect p c y h2 => simp only [visibleCount, ih]
      | codeRect l p c y h2 => simp only [visibleCount, ih]
      | bodyBlock l p c y h2 => simp only [visibleCount, ih]
      | listBlock a b p c y e2 => simp only [visibleCount, ih]

/-- The state right after the main variant's `subsection` has drawn its
band on top of `cs` (the state left by its own space check). -/
def subState (t : String) (cs : State) : State :=
  { cs with
    events := cs.events ++ [Ev.subsectHdr t cs.page cs.colIdx cs.colY],
    lastSub := some (t, cs.colY, cs.page, cs.colIdx),
    colY := cs.colY + 11/2 }

theorem Review.subsection_eq (t : String) (s0 : State) :
    Review.subsection t s0 =
      subState t (checkSpace (6 + 2 * (17/5) + 2) s0) := rfl

theorem cks_orphan (t : String) (cs : State) (needed : ℚ)
    (hnh : ∀ e ∈ cs.events, isHdrT t e = false)
    (hov : cs.colY + 11/2 + needed > bottomLimit) :
    ∃ p2 c2,
      (p2 ≠ cs.page ∨ c2 ≠ cs.colIdx) ∧
      (Review.checkSpaceKeepSubsect needed (subState t cs)).page = p2 ∧
      (Review.checkSpaceKeepSubsect needed (subState t cs)).colIdx = c2 ∧
      (Review.checkSpaceKeepSubsect needed (subState t cs)).colY =
        colTop + 11/2 ∧
      visibleCount t
        (Review.checkSpaceKeepSubsect needed (subState t cs)).events = 1 ∧
      Ev.subsectHdr t p2 c2 colTop ∈
        (Review.checkSpaceKeepSubsect needed (subState t cs)).events := by
  have hb1 : decide (cs.colY ≤ cs.colY) = true := decide_eq_true (le_refl _)
  have hb2 : decide (cs.colY + 9/2 ≤ cs.colY + (cs.colY + 11/2 - cs.colY)) =
      true := decide_eq_true (by linarith)
  simp only [subState, Review.checkSpaceKeepSubsect]
  split_ifs with hcond
  · simp only [checkSpace]
    split_ifs with h1 h2
    · refine ⟨cs.page + 1, 0, Or.inl (Nat.succ_ne_self cs.page), rfl, rfl,
        rfl, ?_, ?_⟩
      · simp only [pageHeader, List.append_assoc, List.cons_append,
          List.nil_append]
        rw [visibleCount_append_of_no_hdr t _ _ hnh]
        simp [visibleCount, coversHdr, isHdrT, hb1, hb2, List.any_cons,
          List.any_nil]
        norm_num
      · simp [pageHeader, List.mem_append, List.mem_cons]
    · refine ⟨cs.page, cs.colIdx + 1, Or.inr (Nat.succ_ne_self cs.colIdx),
        rfl, rfl, rfl, ?_, ?_⟩
      · simp only [List.append_assoc, List.cons_append, List.nil_append]
        rw [visibleCount_append_of_no_hdr t _ _ hnh]
        simp [visibleCount, coversHdr, isHdrT, hb1, hb2, List.any_cons,
          List.any_nil]
        norm_num
      · simp [List.mem_append, List.mem_cons]
    · exact absurd (by linarith) h1
  · exact absurd ⟨trivial, trivial, by linarith⟩ hcond

/-- C1: when a sub-header is placed with less vertical room remaining
below it than the next block needs (the realizable form of "less than the
minimum content height": the room below the drawn band, `bottomLimit -
(y0 + 5.5)`, is smaller than the block's reserved height) and is
immediately followed by a code block or body text block, the main
variant's engine places that block in a different column/page location
than the header's original column (`(p2, c2) ≠ (p0, c0)`), the header text
is rendered exactly once in the final output (the original band is painted
over and exactly one band titled `t` remains visible), and it sits
directly above the block in the new location (block drawn at the redrawn
header's `y + 5.5`, same page and column).  Holds from any starting state
whose trace has no earlier sub-header band titled `t` (the freshness
needed for "exactly once" to be about this header). -/
theorem claim_C1 (M : Metrics) (s0 : State) (t : String) (lines : List String)
    (o : Op) (y0 : ℚ) (p0 c0 : Nat)
    (h0 : ∀ e ∈ s0.events, isHdrT t e = false)
    (ho : o = Op.codeBlock lines ∨ o = Op.bodyText lines)
    (hsub : (Review.subsection t s0).lastSub = some (t, y0, p0, c0))
    (hov : y0 + 11/2 + blockNeeded o > bottomLimit) :
    ∃ p2 c2,
      (p2 ≠ p0 ∨ c2 ≠ c0) ∧
      visibleCount t (Review.step M (Review.subsection t s0) o).events = 1 ∧
      Ev.subsectHdr t p2 c2 colTop ∈
        (Review.step M (Review.subsection t s0) o).events ∧
      blockEv M o p2 c2 (colTop + 11/2) ∈
        (Review.step M (Review.subsection t s0) o).events := by
  set cs := checkSpace (6 + 2 * (17/5) + 2) s0 with hcs
  rw [Review.subsection_eq] at hsub
  rw [← hcs] at hsub
  simp only [subState, Option.some.injEq, Prod.mk.injEq] at hsub
  obtain ⟨-, hy, hp, hc⟩ := hsub
  subst hy hp hc
  have hnh : ∀ e ∈ cs.events, isHdrT t e = false := by
    rw [hcs]
    rcases checkSpace_events (6 + 2 * (17/5) + 2) s0 with he | he <;> rw [he]
    · exact h0
    · intro e hm
      rcases List.mem_append.mp hm with h1 | h1
      · exact h0 e h1
      · simp only [List.mem_singleton] at h1
        subst h1
        rfl
  rcases ho with rfl | rfl
  · simp only [blockNeeded] at hov
    obtain ⟨p2, c2, hne, hpg, hci, hcy, hvc, hmem⟩ :=
      cks_orphan t cs (codeNeeded lines) hnh hov
    rw [show Review.step M (Review.subsection t s0) (Op.codeBlock lines) =
        drawCode M lines (Review.checkSpaceKeepSubsect (codeNeeded lines)
          (subState t cs)) from by rw [hcs]; rfl]
    refine ⟨p2, c2, hne, ?_, ?_, ?_⟩
    · simp only [drawCode]
      rw [hpg, hci, hcy]
      rw [visibleCount_append_nonwhite t _
        (Ev.codeRect (lines.map (fun l => l.take (maxChars M))) p2 c2
          (colTop + 11/2) (codeNeeded lines)) rfl (fun p c y => rfl)]
      exact hvc
    · simp only [drawCode]
      exact List.mem_append.mpr (Or.inl hmem)
    · simp only [drawCode, blockEv, hpg, hci, hcy]
      exact List.mem_append.mpr (Or.inr (List.mem_singleton.mpr rfl))
  · simp only [blockNeeded] at hov
    obtain ⟨p2, c2, hne, hpg, hci, hcy, hvc, hmem⟩ :=
      cks_orphan t cs (bodyNeeded lines) hnh hov
    rw [show Review.step M (Review.subsection t s0) (Op.bodyText lines) =
        drawBody M lines (Review.checkSpaceKeepSubsect (bodyNeeded lines)
          (subState t cs)) from by rw [hcs]; rfl]
    refine ⟨p2, c2, hne, ?_, ?_, ?_⟩
    · simp only [drawBody]
      rw [hpg, hci, hcy]
      rw [visibleCount_append_nonwhite t _
        (Ev.bodyBlock (lines.map (truncLine M.cwBody (colW - 3))) p2 c2
          (colTop + 11/2) (bodyNeeded lines)) rfl (fun p c y => rfl)]
      exact hvc
    · simp only [drawBody]
      exact List.mem_append.mpr (Or.inl hmem)
    · simp only [drawBody, blockEv, hpg, hci, hcy]
      exact List.mem_append.mpr (Or.inr (List.mem_singleton.mpr rfl))

/-- Witness for C1 at a reachable state: from the initial page a spacer of
177.1 brings the cursor to 195.1; header "S" is then drawn with 9.3 of
room below it, and the following 3-line code block needs 12.2, so the
correction fires. -/
theorem claim_C1_witness :
    ∃ p2 c2,
      (p2 ≠ 1 ∨ c2 ≠ 0) ∧
      visibleCount "S" (Review.step unitMetrics
        (Review.subsection "S"
          (Review.run unitMetrics (initState "T") [Op.spacer (1771/10)]))
        (Op.codeBlock ["a", "b", "c"])).events = 1 ∧
      Ev.subsectHdr "S" p2 c2 colTop ∈
        (Review.step unitMetrics
          (Review.subsection "S"
            (Review.run unitMetrics (initState "T") [Op.spacer (1771/10)]))
          (Op.codeBlock ["a", "b", "c"])).events ∧
      blockEv unitMetrics (Op.codeBlock ["a", "b", "c"]) p2 c2
          (colTop + 11/2) ∈
        (Review.step unitMetrics
          (Review.subsection "S"
            (Review.run unitMetrics (initState "T") [Op.spacer (1771/10)]))
          (Op.codeBlock ["a", "b", "c"])).events := by
  have hs0 : Review.run unitMetrics (initState "T") [Op.spacer (1771/10)] =
      ⟨1, 0, 1951/10, "T", none, none, [Ev.chrome "T" 1]⟩ := by
    norm_num [Review.run, Review.step, Review.spacer, initState, pageHeader,
      colTop]
  rw [hs0]
  refine claim_C1 unitMetrics ⟨1, 0, 1951/10, "T", none, none,
      [Ev.chrome "T" 1]⟩ "S" ["a", "b", "c"] (Op.codeBlock ["a", "b", "c"])
      (1951/10) 1 0 ?_ (Or.inl rfl) ?_ ?_
  · intro e hm
    simp only [List.mem_singleton] at hm
    subst hm
    rfl
  · norm_num [Review.subsection, checkSpace, colTop, bottomLimit, pageH,
      margin, colCount]
  · norm_num [blockNeeded, codeNeeded, bottomLimit, pageH, margin]
